import Mathlib

/-!
Verification of the compiler front end of this repository, shallowly embedded
from the Python sources (`parser.py`, `type.py`, `type_inference.py`,
`function_stub.py`, `compiler.py`).

Embedding conventions, used throughout:
* Python strings are Lean `String`s, except inside the lexer where the source
  iterates over single characters: there the input and the tokens are `List Char`.
* Recursive Python functions whose termination is not structural are given an
  explicit fuel parameter (first argument); exhausted fuel yields an `Except.error`
  distinct from the error values modelling the source's own exceptions and
  failed assertions.  Error strings paraphrase the source messages.
* Python dictionaries keyed by `Type` are association lists.  `Type.__hash__`
  in `type.py` returns the constant `1` and the dataclass-generated `__eq__`
  is structural, so dictionary lookup and insertion compare keys structurally:
  `dictLookup` finds the (unique) structurally equal key, `dictInsert`
  overwrites the value of a structurally equal key and otherwise appends,
  which is exactly CPython's dict behaviour under that hash/eq pair
  (insertion order preserved).
* In-place mutation is rendered by value passing: functions that mutate a
  dictionary or a `Type` cell return the updated value instead.
-/

/-- `Instruction` from `instruction.py`: the tag of a raw syntax node. -/
inductive Instruction where
  | Add | Negate | LambdaParams | Defun | Unknown | Module | Mult
  | String1 | Setf | Lambda | NumberConstant
deriving DecidableEq, Repr

/-- `AstNode` from `astnode.py`, restricted to the fields the front end reads:
the instruction tag and the operand list.  An operand is either a child node
or a bare Python string (`.str`); the unused `bound_variables` and
`text_indices` fields are omitted.  The parser stores the operand of a
`Negate` node without a surrounding list (`AstNode(Instruction.Negate, k)`);
the embedding wraps it in a one-element list, which preserves the tree shape. -/
inductive AstNode where
  | node (instr : Instruction) (operands : List AstNode)
  | str (s : String)
deriving Repr

mutual

/-- Decidable structural equality for `AstNode` (the dataclass-generated
`__eq__`), written by hand because the automatic derivation does not handle
the nested `List`. -/
def AstNode.decEq : (a b : AstNode) → Decidable (a = b)
  | .node i1 o1, .node i2 o2 =>
    if h1 : i1 = i2 then
      match AstNode.decEqList o1 o2 with
      | isTrue h2 => isTrue (by rw [h1, h2])
      | isFalse h => isFalse (by intro c; injection c; contradiction)
    else isFalse (by intro c; injection c; contradiction)
  | .str s1, .str s2 =>
    if h : s1 = s2 then isTrue (by rw [h])
    else isFalse (by intro c; injection c; contradiction)
  | .node _ _, .str _ => isFalse (by intro h; exact AstNode.noConfusion h)
  | .str _, .node _ _ => isFalse (by intro h; exact AstNode.noConfusion h)

/-- Element-wise decidable equality for lists of `AstNode`. -/
def AstNode.decEqList : (as1 bs : List AstNode) → Decidable (as1 = bs)
  | [], [] => isTrue rfl
  | a :: as1, b :: bs =>
    match AstNode.decEq a b with
    | isFalse h => isFalse (by intro c; injection c; contradiction)
    | isTrue h1 =>
      match AstNode.decEqList as1 bs with
      | isTrue h2 => isTrue (by rw [h1, h2])
      | isFalse h => isFalse (by intro c; injection c; contradiction)
  | [], _ :: _ => isFalse (by intro h; cases h)
  | _ :: _, [] => isFalse (by intro h; cases h)

end

instance : DecidableEq AstNode := AstNode.decEq

/-- `Type` from `type.py`: an atomic type (a Python string) or an ordered
tuple of types. -/
inductive Ty where
  | atom (s : String)
  | tuple (ts : List Ty)
deriving Repr

mutual

/-- Decidable structural equality for `Ty` (the dataclass-generated `__eq__`
of `type.py`), written by hand because the automatic derivation does not
handle the nested `List`. -/
def Ty.decEq : (a b : Ty) → Decidable (a = b)
  | .atom s1, .atom s2 =>
    if h : s1 = s2 then isTrue (by rw [h])
    else isFalse (by intro c; injection c; contradiction)
  | .tuple t1, .tuple t2 =>
    match Ty.decEqList t1 t2 with
    | isTrue h => isTrue (by rw [h])
    | isFalse h => isFalse (by intro c; injection c; contradiction)
  | .atom _, .tuple _ => isFalse (by intro h; exact Ty.noConfusion h)
  | .tuple _, .atom _ => isFalse (by intro h; exact Ty.noConfusion h)

/-- Element-wise decidable equality for lists of `Ty`. -/
def Ty.decEqList : (as1 bs : List Ty) → Decidable (as1 = bs)
  | [], [] => isTrue rfl
  | a :: as1, b :: bs =>
    match Ty.decEq a b with
    | isFalse h => isFalse (by intro c; injection c; contradiction)
    | isTrue h1 =>
      match Ty.decEqList as1 bs with
      | isTrue h2 => isTrue (by rw [h1, h2])
      | isFalse h => isFalse (by intro c; injection c; contradiction)
  | [], _ :: _ => isFalse (by intro h; cases h)
  | _ :: _, [] => isFalse (by intro h; cases h)

end

instance : DecidableEq Ty := Ty.decEq

/-- `TypeConstraint` from `type.py`: an equality assertion between two types. -/
structure TypeConstraint where
  lhs : Ty
  rhs : Ty
deriving DecidableEq, Repr

/-- A substitution map (`dict[Type, Type]` in the source), as an ordered
association list; see the header on dictionary semantics. -/
abbrev Subst := List (Ty × Ty)

/-- Decidable equality for `Except` results, for evaluating the embedded
functions on concrete inputs. -/
def exceptDecEq {ε α : Type} [DecidableEq ε] [DecidableEq α] :
    (a b : Except ε α) → Decidable (a = b)
  | .error e, .error f =>
    if h : e = f then isTrue (by rw [h])
    else isFalse (by intro c; injection c; contradiction)
  | .ok x, .ok y =>
    if h : x = y then isTrue (by rw [h])
    else isFalse (by intro c; injection c; contradiction)
  | .error _, .ok _ => isFalse (by intro h; exact Except.noConfusion h)
  | .ok _, .error _ => isFalse (by intro h; exact Except.noConfusion h)

instance {ε α : Type} [DecidableEq ε] [DecidableEq α] : DecidableEq (Except ε α) :=
  exceptDecEq

/-- Dictionary lookup under constant hash + structural equality: the first
(and only) structurally equal key wins. -/
def dictLookup {κ ω : Type} [DecidableEq κ] (s : List (κ × ω)) (k : κ) : Option ω :=
  (s.find? (fun p => p.1 = k)).map (fun p => p.2)

/-- Dictionary insertion `d[k] = v` under constant hash + structural equality:
a structurally equal existing key keeps its place and gets the new value,
otherwise the binding is appended (CPython preserves insertion order). -/
def dictInsert {κ ω : Type} [DecidableEq κ] (k : κ) (v : ω) (s : List (κ × ω)) :
    List (κ × ω) :=
  if s.any (fun p => p.1 = k) then s.map (fun p => if p.1 = k then (p.1, v) else p)
  else s ++ [(k, v)]

mutual

/-- `Type.is_base_type` from `type.py`: `"float"`, `"int"` and `"void"` are
base; a tuple is base when all its elements are; any other atom is not. -/
def Ty.is_base_type : Ty → Bool
  | .atom s => s = "float" || s = "int" || s = "void"
  | .tuple ts => Ty.all_base ts

/-- The source's `all(u.is_base_type() for u in t)` over a tuple's elements. -/
def Ty.all_base : List Ty → Bool
  | [] => true
  | t :: ts => t.is_base_type && Ty.all_base ts

end

example : (Ty.atom "int").is_base_type = true := by decide
example : (Ty.tuple [Ty.atom "int", Ty.atom "x"]).is_base_type = false := by decide
example : dictInsert (Ty.atom "x") (Ty.atom "int")
    (dictInsert (Ty.atom "x") (Ty.atom "void") []) = [(Ty.atom "x", Ty.atom "int")] := by decide

/-! ## Lexer (`parser.py`, `lexer`)

The source iterates over the characters of the input string, so the lexer is
embedded over `List Char`; a token is likewise a `List Char`.  `lexWords` is
the loop body: on a space the current word is flushed; on a parenthesis the
current word is flushed and the parenthesis becomes its own token; any other
character is appended to the current word.  After the loop the source does
NOT flush `current_word`, which is therefore dropped; `lexer` finally filters
out the empty words, as the source does. -/

/-- The character loop of `lexer`, carrying the `current_word` accumulator. -/
def lexWords : List Char → List Char → List (List Char)
  | [], _cur => []
  | c :: cs, cur =>
    if c = ' ' then cur :: lexWords cs []
    else if c = '(' then cur :: ['('] :: lexWords cs []
    else if c = ')' then cur :: [')'] :: lexWords cs []
    else lexWords cs (cur ++ [c])

/-- `lexer` from `parser.py`: run the character loop with an empty current
word, then drop the empty words. -/
def lexer (s : List Char) : List (List Char) :=
  (lexWords s []).filter (fun k => k ≠ [])

/-- Re-joining a token sequence with single spaces (the round-trip operation
named by the specification). -/
def joinSpaces : List (List Char) → List Char
  | [] => []
  | [t] => t
  | t :: ts => t ++ ' ' :: joinSpaces ts

/-- `lexer` at the `String` level, handing the parser its `String` tokens:
the same function, with the character lists repackaged as strings. -/
def lexerS (s : String) : List String :=
  (lexer s.data).map (fun t => String.mk t)

/-- A character that neither splits nor becomes its own token in the lexer:
anything but a space or a parenthesis. -/
def isWordChar (c : Char) : Bool :=
  !(c = ' ' || c = '(' || c = ')')

/-- Shape of every token the lexer emits: one of the two parenthesis tokens,
or a nonempty word of non-special characters. -/
def wfTok (t : List Char) : Prop :=
  t = ['('] ∨ t = [')'] ∨ (t ≠ [] ∧ ∀ c ∈ t, isWordChar c = true)

example : lexerS "(- 5 1 1)" = ["(", "-", "5", "1", "1", ")"] := by decide
example : lexer "a ".data = [['a']] := by decide
example : lexer ['a'] = [] := by decide

/-! ## Parser (`parser.py`)

Recursive descent over the token list.  The mutual recursion between
`parser` and `take_until` is modelled with fuel (first argument); the
source's failure modes (an `assert` on the closing parenthesis, `reduce`
applied to an empty sequence, and the fall-through `None` on an empty token
list) are `Except.error` values.  The source's `-` case builds
`AstNode(Instruction.Negate, k)` with a bare operand; the embedding wraps
`k` in a one-element list (see `AstNode`). -/

/-- `is_number` from `parser.py`: every character is a digit or a dot
(vacuously true for the empty token, exactly as in the source). -/
def is_number (a : String) : Bool :=
  a.data.all (fun c => c.isDigit || c = '.')

/-- Python's `reduce` of a binary-node constructor over a non-empty operand
list: a LEFT fold whose initial value is the first element; an empty operand
list is the source's `TypeError` from `reduce`. -/
def reduceOp (instr : Instruction) : List AstNode → Except String AstNode
  | [] => .error "reduce of empty sequence"
  | x :: xs => .ok (xs.foldl (fun k1 k2 => AstNode.node instr [k1, k2]) x)

mutual

/-- `parser` from `parser.py`: consume a prefix of the token sequence and
return one syntax node plus the remaining tokens.  Note that the `+`, `-`
and `*` cases do not consume the closing parenthesis they assert on. -/
def parser : Nat → List String → Except String (AstNode × List String)
  | 0, _ => .error "out of fuel"
  | _ + 1, [] => .error "no case matched"
  | fuel + 1, x :: rest =>
    if x = "(" then do
      let (total_result, next) ← take_until fuel rest ")"
      match next with
      | y :: rest2 =>
        if y = ")" then .ok (.node .Unknown total_result, rest2)
        else .error "assert failed: expected closing parenthesis"
      | [] => .error "assert failed: expected closing parenthesis"
    else if x = "+" then do
      let (token_result, next) ← take_until fuel rest ")"
      match next with
      | y :: _ =>
        if y = ")" then do
          let t ← reduceOp .Add token_result
          .ok (t, next)
        else .error "assert failed: expected closing parenthesis"
      | [] => .error "assert failed: expected closing parenthesis"
    else if x = "-" then do
      let (token_result, next) ← take_until fuel rest ")"
      match next with
      | y :: _ =>
        if y = ")" then do
          let mapped :=
            match token_result with
            | [] => []
            | h :: t => h :: t.map (fun k => AstNode.node .Negate [k])
          let t ← reduceOp .Add mapped
          .ok (t, next)
        else .error "assert failed: expected closing parenthesis"
      | [] => .error "assert failed: expected closing parenthesis"
    else if x = "*" then do
      let (token_result, next) ← take_until fuel rest ")"
      match next with
      | y :: _ =>
        if y = ")" then do
          let t ← reduceOp .Mult token_result
          .ok (t, next)
        else .error "assert failed: expected closing parenthesis"
      | [] => .error "assert failed: expected closing parenthesis"
    else if is_number x then .ok (.node .NumberConstant [.str x], rest)
    else .ok (.node .String1 [.str x], rest)

/-- `take_until` from `parser.py`: repeatedly parse sibling nodes until the
token list is exhausted or its head equals the terminator. -/
def take_until : Nat → List String → String → Except String (List AstNode × List String)
  | 0, _, _ => .error "out of fuel"
  | _ + 1, [], _ => .ok ([], [])
  | fuel + 1, x :: rest, u =>
    if x = u then .ok ([], x :: rest)
    else do
      let (result, next) ← parser fuel (x :: rest)
      let (results, next2) ← take_until fuel next u
      .ok (result :: results, next2)

end

example :
    parser 20 (lexerS "(- 5 1 1)") =
      .ok (.node .Unknown
        [.node .Add
          [.node .Add
            [.node .NumberConstant [.str "5"],
             .node .Negate [.node .NumberConstant [.str "1"]]],
           .node .Negate [.node .NumberConstant [.str "1"]]]], []) := by decide

/-! ## Desugarer (`parser.py`, `flatten_tree`)

`flatten_tree` rewrites the tree in place; the embedding threads the
process-wide `name_counter` (for `gen_random_name`) explicitly and returns
the rewritten node.  A literal or identifier node returns unchanged; a group
whose operand list is exactly one `AstNode` is replaced by the flattening of
that child; any other group is first matched against the lambda / defun
shapes (possibly rewriting tag and operands); finally the operands are
flattened left to right.  Calling the function on a bare string operand is
the source's `AttributeError` (a string has no `operands` field). -/

/-- `gen_random_name` from `parser.py`: increment the counter, then use the
incremented value. -/
def gen_random_name (c : Nat) : Nat × AstNode :=
  (c + 1, .node .String1 [.str ("Lambda-" ++ toString (c + 1))])

/-- A parameter node of a lambda shape must be an identifier node (the
source's `assert all(param.instr == Instruction.String1 ...)`). -/
def isString1 : AstNode → Bool
  | .node .String1 _ => true
  | _ => false

/-- The inner `match uk_node.operands` of `flatten_tree`: recognize the
`(lambda (params) body)` and `(defun name (params) body)` shapes, rewriting
instruction tag and operand list; any other shape is left alone.  Returns the
updated name counter together with the (possibly rewritten) tag and
operands. -/
def desugarUnknown (c : Nat) (ops : List AstNode) :
    Except String (Nat × Instruction × List AstNode) :=
  match ops with
  | [.node .String1 [.str l], .node .Unknown lambda_params, fn_body] =>
    if l = "lambda" then
      if lambda_params.all isString1 then
        let (c1, name) := gen_random_name c
        .ok (c1, .Defun, [name, .node .LambdaParams lambda_params, fn_body])
      else .error "assert failed: lambda parameter is not an identifier"
    else .ok (c, .Unknown, ops)
  | [.node .String1 [.str l], .node .String1 [.str fn_name],
     .node .Unknown lambda_params, fn_body] =>
    if l = "defun" then
      .ok (c, .Defun,
        [.node .String1 [.str fn_name], .node .LambdaParams lambda_params, fn_body])
    else .ok (c, .Unknown, ops)
  | _ => .ok (c, .Unknown, ops)

mutual

/-- `flatten_tree` from `parser.py` (fuel-indexed; see the section header). -/
def flatten_tree : Nat → Nat → AstNode → Except String (Nat × AstNode)
  | 0, _, _ => .error "out of fuel"
  | _ + 1, c, .node .NumberConstant ops => .ok (c, .node .NumberConstant ops)
  | _ + 1, c, .node .String1 ops => .ok (c, .node .String1 ops)
  | fuel + 1, c, .node .Unknown [.node i ops] => flatten_tree fuel c (.node i ops)
  | fuel + 1, c, .node .Unknown ops => do
    let (c1, instr, ops1) ← desugarUnknown c ops
    let (c2, ops2) ← flatten_list fuel c1 ops1
    .ok (c2, .node instr ops2)
  | fuel + 1, c, .node i ops => do
    let (c2, ops2) ← flatten_list fuel c ops
    .ok (c2, .node i ops2)
  | _ + 1, _, .str _ => .error "AttributeError: a str operand has no operands"

/-- The source's `list(map(lambda k: flatten_tree(k), node.operands))`,
threading the name counter left to right. -/
def flatten_list : Nat → Nat → List AstNode → Except String (Nat × List AstNode)
  | 0, _, _ => .error "out of fuel"
  | _ + 1, c, [] => .ok (c, [])
  | fuel + 1, c, a :: as1 => do
    let (c1, a1) ← flatten_tree fuel c a
    let (c2, as2) ← flatten_list fuel c1 as1
    .ok (c2, a1 :: as2)

end

example :
    flatten_tree 5 1 (.node .Unknown [.node .NumberConstant [.str "5"]]) =
      .ok (1, .node .NumberConstant [.str "5"]) := by decide

/-! ## Type inference (`type_inference.py`)

`type_annotator` walks a syntax node, appending constraints to the
constraint list and returning the node's type; the process-wide
`type_var_counter` is threaded explicitly.  The source returns `None` when
no case matches (e.g. a `Defun` node) and raises `IndexError` on
`operands_type[-1]` of an empty group; both are `Except.error`s here. -/

/-- `get_unknown_type_var` with no argument: increment the counter and use
the incremented value. -/
def get_unknown_type_var_fresh (c : Nat) : Nat × String :=
  (c + 1, "Unknown-" ++ toString (c + 1))

/-- Python's `str.isnumeric` for the tokens this pipeline produces: nonempty
and all (ASCII) digits. -/
def isnumeric (a : String) : Bool :=
  !a.isEmpty && a.data.all Char.isDigit

mutual

/-- `type_annotator` from `type_inference.py` (fuel-indexed).  Note the
`Add | Mult` case appends a constraint whose left side is the atomic type
named `"Operator+"` for BOTH instructions. -/
def type_annotator : Nat → Nat → AstNode → List TypeConstraint →
    Except String (Nat × Ty × List TypeConstraint)
  | 0, _, _, _ => .error "out of fuel"
  | _ + 1, c, .node .NumberConstant [.str x], constraints =>
    if isnumeric x then .ok (c, .atom "int", constraints)
    else if is_number x then .ok (c, .atom "float", constraints)
    else .error "no case matched"
  | _ + 1, c, .node .String1 [.str var_name], constraints =>
    .ok (c, .atom ("Unknown-" ++ var_name), constraints)
  | _ + 1, c, .str var_name, constraints =>
    .ok (c, .atom ("Unknown-" ++ var_name), constraints)
  | fuel + 1, c, .node .Add [lhs, rhs], constraints => do
    let (c1, lhs_type, cs1) ← type_annotator fuel c lhs constraints
    let (c2, rhs_type, cs2) ← type_annotator fuel c1 rhs cs1
    let (c3, v) := get_unknown_type_var_fresh c2
    let result_type := Ty.atom v
    let param_types := Ty.tuple [lhs_type, rhs_type, result_type]
    .ok (c3, result_type, cs2 ++ [⟨Ty.atom "Operator+", param_types⟩])
  | fuel + 1, c, .node .Mult [lhs, rhs], constraints => do
    let (c1, lhs_type, cs1) ← type_annotator fuel c lhs constraints
    let (c2, rhs_type, cs2) ← type_annotator fuel c1 rhs cs1
    let (c3, v) := get_unknown_type_var_fresh c2
    let result_type := Ty.atom v
    let param_types := Ty.tuple [lhs_type, rhs_type, result_type]
    .ok (c3, result_type, cs2 ++ [⟨Ty.atom "Operator+", param_types⟩])
  | fuel + 1, c, .node .Negate [val], constraints => do
    let (c1, val_type, cs1) ← type_annotator fuel c val constraints
    .ok (c1, val_type, cs1 ++ [⟨val_type, Ty.atom "int"⟩])
  | fuel + 1, c, .node .Unknown (.node .String1 [.str fn_name] :: params_list),
      constraints => do
    let (c1, v) := get_unknown_type_var_fresh c
    let return_type := Ty.atom v
    let fn_name_type := Ty.atom fn_name
    let (c2, params_type, cs2) ← annotate_list fuel c1 params_list constraints
    let params_type := Ty.tuple (params_type ++ [return_type])
    .ok (c2, return_type, cs2 ++ [⟨fn_name_type, params_type⟩])
  | fuel + 1, c, .node .Unknown operands, constraints => do
    let (c1, operands_type, cs1) ← annotate_list fuel c operands constraints
    match operands_type.getLast? with
    | some t => .ok (c1, t, cs1)
    | none => .error "IndexError: empty operand list"
  | _ + 1, _, _, _ => .error "no case matched"

/-- The source's `list(map(lambda k: type_annotator(k, constraints), ...))`,
threading counter and constraint list left to right. -/
def annotate_list : Nat → Nat → List AstNode → List TypeConstraint →
    Except String (Nat × List Ty × List TypeConstraint)
  | 0, _, _, _ => .error "out of fuel"
  | _ + 1, c, [], constraints => .ok (c, [], constraints)
  | fuel + 1, c, a :: as1, constraints => do
    let (c1, t, cs1) ← type_annotator fuel c a constraints
    let (c2, ts, cs2) ← annotate_list fuel c1 as1 cs1
    .ok (c2, t :: ts, cs2)

end

example :
    type_annotator 10 0 (.node .Mult
        [.node .NumberConstant [.str "1"], .node .NumberConstant [.str "2"]]) [] =
      .ok (1, Ty.atom "Unknown-1",
        [⟨Ty.atom "Operator+",
          Ty.tuple [Ty.atom "int", Ty.atom "int", Ty.atom "Unknown-1"]⟩]) := by decide

/-! ## Unifier (`type_inference.py`, `unify_vars`)

The source mutates the `solutions` dictionary in place and raises on
failure; the embedding threads the dictionary and returns `Except`.  The
tuple/tuple case iterates over `zip(t1, t2)`, which silently truncates to
the shorter list; there is no arity check.  In every other pairing the
source first tests structural equality, then chases an existing mapping of
either side, and finally inserts a mapping directed by base-ness (`clone()`
is value copying and disappears in the embedding).  The chase through the
dictionary can diverge in the source, hence the fuel. -/

def unify_vars : Nat → Ty → Ty → Subst → Except String Subst
  | 0, _, _, _ => .error "out of fuel"
  | fuel + 1, one, two, solutions =>
    match one, two with
    | .tuple t1, .tuple t2 =>
      (t1.zip t2).foldlM (fun acc p => unify_vars fuel p.1 p.2 acc) solutions
    | one, two =>
      if one = two then .ok solutions
      else
        match dictLookup solutions one with
        | some v => unify_vars fuel v two solutions
        | none =>
          match dictLookup solutions two with
          | some v => unify_vars fuel one v solutions
          | none =>
            match one.is_base_type, two.is_base_type with
            | true, true => .error "Primitive types do not match"
            | true, false => .ok (dictInsert two one solutions)
            | false, true => .ok (dictInsert one two solutions)
            | false, false => .ok (dictInsert one two solutions)

mutual

/-- Nesting depth of a type (a measure used to bound the fuel that
structural self-unification needs). -/
def tyDepth : Ty → Nat
  | .atom _ => 0
  | .tuple ts => tyDepthList ts + 1

/-- Maximum depth of a list of types. -/
def tyDepthList : List Ty → Nat
  | [] => 0
  | t :: ts => max (tyDepth t) (tyDepthList ts)

end

/-! ## Simplification (`type_inference.py`, `convert_type` and
`simplify_unification`)

`simplify_unification` runs ten rounds; each round walks the keys in
dictionary order and, for a key whose mapped value is not base, rewrites the
mapped value with `convert_type`/`demote_constraint`: any sub-type different
from the key that is itself a key with a different mapped value has its
content overwritten by that mapped value.  The source performs the overwrite
by mutating the sub-`Type` cell in place (and returns a boolean nobody
uses); the embedding rebuilds the value instead. -/

mutual

/-- The rewriting effect of `convert_type(base_t, t, demote_constraint)` on
`t`: a sub-type equal to `base_t` is skipped; an atomic sub-type that is a
key of `unified` with a different mapped value is replaced by that value; a
tuple is rewritten element-wise. -/
def convert_type (unified : Subst) (base_t : Ty) : Ty → Ty
  | .atom a =>
    if Ty.atom a = base_t then .atom a
    else
      match dictLookup unified (.atom a) with
      | some v => if Ty.atom a ≠ v then v else .atom a
      | none => .atom a
  | .tuple ts =>
    if Ty.tuple ts = base_t then .tuple ts
    else .tuple (convert_type_list unified base_t ts)

/-- Element-wise `convert_type` over a tuple's components. -/
def convert_type_list (unified : Subst) (base_t : Ty) : List Ty → List Ty
  | [] => []
  | t :: ts => convert_type unified base_t t :: convert_type_list unified base_t ts

end

/-- One round of the `for u in unified` loop of `simplify_unification`:
fold over the keys in dictionary order, each step reading and updating the
current dictionary. -/
def demote_round (s : Subst) : Subst :=
  (s.map (fun p => p.1)).foldl
    (fun acc u =>
      match dictLookup acc u with
      | some v =>
        if v.is_base_type then acc
        else acc.map (fun p => if p.1 = u then (p.1, convert_type acc u v) else p)
      | none => acc)
    s

/-- `simplify_unification` from `type_inference.py`: ten rounds of
demotion. -/
def simplify_unification (s : Subst) : Subst :=
  (List.range 10).foldl (fun acc _ => demote_round acc) s

/-! ## Function stubs (`function_stub.py`)

Only the fields `apply_with_type` reads are embedded: the function's own
name type `my_type` and its merged substitution map `intermediate_types`
(the source's `deepcopy` before unification is value copying here). -/

structure FunctionStub where
  my_type : Ty
  intermediate_types : Subst
deriving DecidableEq, Repr

/-- `FunctionStub.apply_with_type`: the invocation type must be a tuple
(else `RuntimeError("Compile failed")`) whose length equals `len(...)` of
the value mapped to `my_type` (for an atomic mapped value Python's `len`
measures the name string).  Then the function's name type is unified against
the invocation tuple in a copy of the merged map, the result is simplified,
every mapped value is asserted base-resolved, and the value that the map
assigns to `my_type` is returned. -/
def apply_with_type (fuel : Nat) (stub : FunctionStub) (args : Ty) :
    Except String Ty :=
  match args with
  | .tuple types =>
    match dictLookup stub.intermediate_types stub.my_type with
    | none => .error "KeyError: my_type not in intermediate_types"
    | some mapped =>
      let n := match mapped with
        | .tuple mts => mts.length
        | .atom s => s.length
      if types.length = n then do
        let solution ← unify_vars fuel stub.my_type args stub.intermediate_types
        let solution := simplify_unification solution
        if solution.all (fun p => p.2.is_base_type) then
          match dictLookup solution stub.my_type with
          | some r => .ok r
          | none => .error "KeyError: my_type not in solution"
        else .error "Type must be fully resolved at this point"
      else .error "assert failed: arity mismatch"
  | _ => .error "Compile failed"

example :
    apply_with_type 10
      ⟨Ty.atom "f",
       [(Ty.atom "f", Ty.tuple [Ty.atom "Unknown-x", Ty.atom "Unknown-1"])]⟩
      (Ty.tuple [Ty.atom "int", Ty.atom "int"]) =
      .ok (Ty.tuple [Ty.atom "int", Ty.atom "int"]) := by decide

/-! ## Typed intermediate form and call resolver (`astnode.py`, `compiler.py`)

`BaseAst` covers the node kinds the lowering pass produces plus the resolved
call node: unresolved variable load, constant load, unresolved call by name,
direct call referencing a typed function definition, and sequence.
`resolve_all_function_calls` builds the name-to-definition dictionary
(`{x.name: x for x in functions}`, later entries overwriting earlier ones)
and rewrites all bodies; the source's single `recursive_resolver` dispatches
on the Python class of its argument, embedded here as `resolveFnDef` for the
top-level `TypedFnDef` case and `resolveAst` for body nodes.  A missing
callee name is the source's `KeyError` from `function_name_map[fn]` (raised
after the arguments have been resolved). -/

/-- `VariableDef` from `astnode.py`: a typed parameter. -/
structure VariableDef where
  name : String
  type : Ty
deriving DecidableEq, Repr

mutual

/-- The body-expression node kinds of `astnode.py` that lowering and
resolution traffic in. -/
inductive BaseAst where
  | UnresolvedVariableLoad (var : String) : BaseAst
  | ConstantLoad (type : Ty) (constant : String) : BaseAst
  | UnresolvedFnApp (fn : String) (params : List BaseAst) : BaseAst
  | FunctionApplication (fn : TypedFnDef) (params : List BaseAst) : BaseAst
  | ProgN (programs : List BaseAst) : BaseAst

/-- `TypedFnDef` from `astnode.py`: name, typed parameters, body, resolved
return type. -/
inductive TypedFnDef where
  | mk (name : String) (params : List VariableDef) (body : BaseAst)
      (return_type : Ty) : TypedFnDef

end

def TypedFnDef.name : TypedFnDef → String
  | .mk n _ _ _ => n

def TypedFnDef.params : TypedFnDef → List VariableDef
  | .mk _ p _ _ => p

def TypedFnDef.body : TypedFnDef → BaseAst
  | .mk _ _ b _ => b

def TypedFnDef.return_type : TypedFnDef → Ty
  | .mk _ _ _ r => r

/-- The dictionary comprehension `{x.name: x for x in functions}`: an
insertion-ordered dictionary where a later duplicate name overwrites. -/
def function_name_map (functions : List TypedFnDef) : List (String × TypedFnDef) :=
  functions.foldl (fun acc x => dictInsert x.name x acc) []

mutual

/-- The body-node cases of `recursive_resolver`: resolve the arguments of an
unresolved call, then look its callee up (a missing name is the `KeyError`),
and rebuild; recurse through sequences; leave everything else unchanged. -/
def resolveAst (m : List (String × TypedFnDef)) : BaseAst → Except String BaseAst
  | .UnresolvedFnApp fn params => do
    let resolved_params ← resolveList m params
    match dictLookup m fn with
    | some d => .ok (.FunctionApplication d resolved_params)
    | none => .error ("KeyError: " ++ fn)
  | .ProgN programs => do
    let ps ← resolveList m programs
    .ok (.ProgN ps)
  | a => .ok a

/-- Element-wise resolution of a node list. -/
def resolveList (m : List (String × TypedFnDef)) :
    List BaseAst → Except String (List BaseAst)
  | [] => .ok []
  | a :: as1 => do
    let a1 ← resolveAst m a
    let as2 ← resolveList m as1
    .ok (a1 :: as2)

end

/-- The `TypedFnDef` case of `recursive_resolver`: resolve the body in
place. -/
def resolveFnDef (m : List (String × TypedFnDef)) (f : TypedFnDef) :
    Except String TypedFnDef := do
  let b ← resolveAst m f.body
  .ok (.mk f.name f.params b f.return_type)

/-- The source's `list(map(recursive_resolver, functions))`: resolve each
definition in order, propagating the first failure. -/
def resolveDefs (m : List (String × TypedFnDef)) :
    List TypedFnDef → Except String (List TypedFnDef)
  | [] => .ok []
  | f :: fs => do
    let f1 ← resolveFnDef m f
    let fs1 ← resolveDefs m fs
    .ok (f1 :: fs1)

/-- `resolve_all_function_calls` from `compiler.py`. -/
def resolve_all_function_calls (functions : List TypedFnDef) :
    Except String (List TypedFnDef) :=
  resolveDefs (function_name_map functions) functions

mutual

/-- The callee names of the unresolved calls that `recursive_resolver`
visits: through unresolved-call arguments and sequence elements (it does not
descend into already-resolved direct calls). -/
def unresolvedNames : BaseAst → List String
  | .UnresolvedFnApp fn params => fn :: unresolvedNamesList params
  | .ProgN programs => unresolvedNamesList programs
  | _ => []

/-- Union of `unresolvedNames` over a node list. -/
def unresolvedNamesList : List BaseAst → List String
  | [] => []
  | a :: as1 => unresolvedNames a ++ unresolvedNamesList as1

end

mutual

/-- Whether an expression tree still contains an unresolved call node,
looking also inside the argument lists of direct calls. -/
def hasUnresolvedCall : BaseAst → Bool
  | .UnresolvedFnApp _ _ => true
  | .FunctionApplication _ ps => hasUnresolvedCallList ps
  | .ProgN ps => hasUnresolvedCallList ps
  | _ => false

/-- `hasUnresolvedCall` over a node list. -/
def hasUnresolvedCallList : List BaseAst → Bool
  | [] => false
  | a :: as1 => hasUnresolvedCall a || hasUnresolvedCallList as1

end

mutual

/-- Whether an expression tree is free of already-resolved direct calls —
the shape the lowering pass hands to the resolver (lowering only emits
variable loads, constant loads, unresolved calls and sequences). -/
def faFree : BaseAst → Bool
  | .UnresolvedFnApp _ ps => faFreeList ps
  | .FunctionApplication _ _ => false
  | .ProgN ps => faFreeList ps
  | _ => true

/-- `faFree` over a node list. -/
def faFreeList : List BaseAst → Bool
  | [] => true
  | a :: as1 => faFree a && faFreeList as1

end

example : resolveAst [] (.ProgN []) = .ok (.ProgN []) := by rfl
example :
    resolve_all_function_calls
      [.mk "g" [] (.ConstantLoad (Ty.atom "int") "1") (Ty.atom "int"),
       .mk "main" [] (.UnresolvedFnApp "g" []) (Ty.atom "void")] =
    .ok [.mk "g" [] (.ConstantLoad (Ty.atom "int") "1") (Ty.atom "int"),
         .mk "main" []
           (.FunctionApplication
             (.mk "g" [] (.ConstantLoad (Ty.atom "int") "1") (Ty.atom "int")) [])
           (Ty.atom "void")] := by rfl

/-! ## Claims -/

/-- C10: parsing a token sequence that begins with an unmatched `)` does not
fail: the `)` token is not consumed as a group terminator, falls through the
operator and number cases, and becomes an identifier (`String1`) node whose
value is the string `)`, with the rest of the tokens untouched. -/
theorem c10_unmatched_close_paren_is_identifier (fuel : Nat) (rest : List String) :
    parser (fuel + 1) (")" :: rest) =
      .ok (.node .String1 [.str ")"], rest) := rfl

/-- C9: the desugarer replaces a group node whose operand list is exactly
one syntax node — of any instruction kind — by the recursive flattening of
that child; in particular a group containing a single numeric literal
flattens to the literal node itself, with no surrounding group. -/
theorem c9_single_child_group_unwrapped :
    (∀ (fuel c : Nat) (i : Instruction) (ops : List AstNode),
      flatten_tree (fuel + 1) c (.node .Unknown [.node i ops]) =
        flatten_tree fuel c (.node i ops)) ∧
    flatten_tree 5 1 (.node .Unknown [.node .NumberConstant [.str "5"]]) =
      .ok (1, .node .NumberConstant [.str "5"]) :=
  ⟨fun _ _ i _ => by cases i <;> rfl, by decide⟩

/-- C8 (refutation): with the constant hash and structural equality of
`type.py`, two structurally equal `Type` values denote the same dictionary
key; inserting both leaves ONE entry (the second insert overwrites the
first), not two. -/
theorem c8_counterexample :
    dictInsert (Ty.atom "Unknown-x") (Ty.atom "float")
        (dictInsert (Ty.atom "Unknown-x") (Ty.atom "int") []) =
      [(Ty.atom "Unknown-x", Ty.atom "float")] ∧
    (dictInsert (Ty.atom "Unknown-x") (Ty.atom "float")
        (dictInsert (Ty.atom "Unknown-x") (Ty.atom "int") [])).length ≠ 2 := by
  decide

/-- C8 (amended): structurally equal `Type` values are interchangeable
substitution-map keys: inserting under the same key twice keeps a single
entry holding the second value. -/
theorem c8_amended_structural_keys_collapse (k v1 v2 : Ty) :
    dictInsert k v2 (dictInsert k v1 []) = [(k, v2)] := by
  simp [dictInsert]

/-- C4 (refutation): parsing `"(- 5 1 1)"` negates the operands after the
first, but `reduce` folds to the LEFT: the result is the group-wrapped tree
`add(add(5, negate(1)), negate(1))`, which differs from the claimed
right-nested shape `add(5, add(negate(1), negate(1)))`. -/
theorem c4_counterexample :
    parser 20 (lexerS "(- 5 1 1)") =
      .ok (.node .Unknown
        [.node .Add
          [.node .Add
            [.node .NumberConstant [.str "5"],
             .node .Negate [.node .NumberConstant [.str "1"]]],
           .node .Negate [.node .NumberConstant [.str "1"]]]], []) ∧
    (AstNode.node .Add
      [.node .Add
        [.node .NumberConstant [.str "5"],
         .node .Negate [.node .NumberConstant [.str "1"]]],
       .node .Negate [.node .NumberConstant [.str "1"]]]) ≠
    (AstNode.node .Add
      [.node .NumberConstant [.str "5"],
       .node .Add
        [.node .Negate [.node .NumberConstant [.str "1"]],
         .node .Negate [.node .NumberConstant [.str "1"]]]]) := by
  decide

/-- C4 (amended): parsing the source `"(- 5 1 1)"` yields a group node whose
sole child is `add(add(5, negate(1)), negate(1))`: the `-` form negates
every operand after the first and folds the operands LEFT-to-right into
nested binary-add nodes. -/
theorem c4_amended_subtraction_left_fold :
    parser 20 (lexerS "(- 5 1 1)") =
      .ok (.node .Unknown
        [.node .Add
          [.node .Add
            [.node .NumberConstant [.str "5"],
             .node .Negate [.node .NumberConstant [.str "1"]]],
           .node .Negate [.node .NumberConstant [.str "1"]]]], []) := by
  decide

/-- C2 (code bug witnessed): type inference on a binary-multiply node emits
its one constraint with left side `Operator+` — the ADD operator's name, not
`Operator*` — even though the lowering pass (`convert_to_baseast`) maps
multiply nodes to the callee name `"Operator*"` and the sample program
defines an `Operator*` intrinsic. -/
theorem c2_mult_constraint_uses_operator_plus :
    type_annotator 10 0 (.node .Mult
        [.node .NumberConstant [.str "1"], .node .NumberConstant [.str "2"]]) [] =
      .ok (1, Ty.atom "Unknown-1",
        [⟨Ty.atom "Operator+",
          Ty.tuple [Ty.atom "int", Ty.atom "int", Ty.atom "Unknown-1"]⟩]) ∧
    ("Operator+" : String) ≠ "Operator*" := by
  decide

/-- C1 (refutation): specializing a stub whose name type `f` is mapped to
the two-slot tuple `(Unknown-x, Unknown-1)` against the concrete invocation
tuple `(int, int)` succeeds — and returns the WHOLE resolved tuple
`(int, int)` (the value the solution maps `f` to), which is not the resolved
return-type slot `int`. -/
theorem c1_counterexample :
    apply_with_type 10
      ⟨Ty.atom "f",
       [(Ty.atom "f", Ty.tuple [Ty.atom "Unknown-x", Ty.atom "Unknown-1"])]⟩
      (Ty.tuple [Ty.atom "int", Ty.atom "int"]) =
      .ok (Ty.tuple [Ty.atom "int", Ty.atom "int"]) ∧
    Ty.tuple [Ty.atom "int", Ty.atom "int"] ≠ Ty.atom "int" := by
  decide

/-- `zip` truncates both lists to the length of the shorter one. -/
theorem zip_eq_zip_take_min {α β : Type} :
    ∀ (t1 : List α) (t2 : List β),
      t1.zip t2 =
        (t1.take (min t1.length t2.length)).zip (t2.take (min t1.length t2.length))
  | [], _ => by simp
  | _ :: _, [] => by simp
  | a :: as1, b :: bs => by
    simp only [List.length_cons, Nat.succ_min_succ, List.take_succ_cons, List.zip_cons_cons]
    exact congrArg _ (zip_eq_zip_take_min as1 bs)

/-- C3 (refutation): unifying the 2-tuple `(int, int)` against the 1-tuple
`(int)` — two tuple types of unequal arity — succeeds (the `zip` silently
drops the extra slot and the common prefix unifies), instead of failing with
an arity-mismatch error. -/
theorem c3_counterexample :
    unify_vars 2 (Ty.tuple [Ty.atom "int", Ty.atom "int"])
        (Ty.tuple [Ty.atom "int"]) [] = .ok [] ∧
    [Ty.atom "int", Ty.atom "int"].length ≠ [Ty.atom "int"].length := by
  decide

/-- C5 helper: a tuple element is at most as deep as the whole element
list. -/
theorem tyDepth_le_of_mem : ∀ {ts : List Ty} {x : Ty}, x ∈ ts → tyDepth x ≤ tyDepthList ts
  | [], _, h => absurd h (List.not_mem_nil _)
  | t :: ts, x, h => by
    rcases List.mem_cons.mp h with h1 | h1
    · rw [h1, tyDepthList]; exact Nat.le_max_left _ _
    · rw [tyDepthList]; exact Nat.le_trans (tyDepth_le_of_mem h1) (Nat.le_max_right _ _)

/-- C5 helper: element-wise self-unification over `zip ts ts` returns the
map unchanged when every element self-unifies to the unchanged map. -/
theorem foldlM_unify_self (n : Nat) :
    ∀ (ts : List Ty) (s : Subst),
      (∀ x ∈ ts, ∀ s1, unify_vars n x x s1 = .ok s1) →
      ((ts.zip ts).foldlM (fun acc p => unify_vars n p.1 p.2 acc) s :
        Except String Subst) = .ok s
  | [], s, _ => rfl
  | a :: as1, s, h => by
    have ha := h a (List.mem_cons_self a as1) s
    simp only [List.zip_cons_cons, List.foldlM, ha]
    exact foldlM_unify_self n as1 s (fun x hx s1 => h x (List.mem_cons_of_mem a hx) s1)

/-- C5 helper: with fuel exceeding the type's depth, unifying any type with
itself succeeds and returns the substitution map unchanged. -/
theorem unify_vars_self : ∀ (fuel : Nat) (t : Ty) (s : Subst),
    tyDepth t < fuel → unify_vars fuel t t s = .ok s
  | 0, _, _, h => absurd h (Nat.not_lt_zero _)
  | fuel + 1, .atom a, s, _ => by simp [unify_vars]
  | fuel + 1, .tuple ts, s, h => by
    simp only [unify_vars]
    refine foldlM_unify_self fuel ts s (fun x hx s1 => ?_)
    refine unify_vars_self fuel x s1 (Nat.lt_of_le_of_lt (tyDepth_le_of_mem hx) ?_)
    have : tyDepthList ts < fuel := by
      have := h; rw [tyDepth] at this; omega
    exact this

/-- C3 (amended): structural unification of two tuple types never checks
arity — it unifies exactly the common prefix: unifying any two tuples is the
same as unifying their truncations to the shorter length (the `zip` of the
source truncates silently). -/
theorem c3_amended_tuple_unification_truncates (fuel : Nat) (t1 t2 : List Ty)
    (s : Subst) :
    unify_vars fuel (.tuple t1) (.tuple t2) s =
      unify_vars fuel (.tuple (t1.take (min t1.length t2.length)))
        (.tuple (t2.take (min t1.length t2.length))) s := by
  cases fuel with
  | zero => rfl
  | succ n =>
    simp only [unify_vars]
    rw [← zip_eq_zip_take_min]

/-- C5: unifying two distinct atomic base types fails with the base-type
conflict error, and unifying any type with itself (with fuel exceeding its
depth) succeeds and returns the substitution map unchanged. -/
theorem c5_base_conflict_and_self_unification :
    (∀ (a b : String) (fuel : Nat),
      (Ty.atom a).is_base_type = true → (Ty.atom b).is_base_type = true →
      a ≠ b →
      unify_vars (fuel + 1) (.atom a) (.atom b) [] =
        .error "Primitive types do not match") ∧
    (∀ (fuel : Nat) (t : Ty) (s : Subst),
      tyDepth t < fuel → unify_vars fuel t t s = .ok s) := by
  constructor
  · intro a b fuel ha hb hab
    have hne : Ty.atom a ≠ Ty.atom b := by
      intro h; injection h; contradiction
    simp [unify_vars, dictLookup, hne, ha, hb]
  · exact unify_vars_self

/-- C5 witness: `int` against `float` raises the base-type conflict;
the 1-tuple `(Unknown-x)` self-unifies and leaves a nonempty map intact. -/
theorem c5_witness :
    unify_vars 1 (.atom "int") (.atom "float") [] =
      .error "Primitive types do not match" ∧
    unify_vars 2 (Ty.tuple [Ty.atom "Unknown-x"]) (Ty.tuple [Ty.atom "Unknown-x"])
        [(Ty.atom "Unknown-y", Ty.atom "int")] =
      .ok [(Ty.atom "Unknown-y", Ty.atom "int")] :=
  ⟨c5_base_conflict_and_self_unification.1 "int" "float" 0 (by decide) (by decide)
      (by decide),
   c5_base_conflict_and_self_unification.2 2 (Ty.tuple [Ty.atom "Unknown-x"])
      [(Ty.atom "Unknown-y", Ty.atom "int")] (by decide)⟩

/-- C1 (amended): on the same specialization, unification inserts the
resolving bindings for both type variables, simplification rewrites the
entry function's mapped tuple so that EVERY mapped value is base-resolved
(the source's asserted postcondition), and `apply_with_type` returns the
value the solution maps the entry function's name type to: the whole
resolved tuple, not only its return-type slot. -/
theorem c1_amended_returns_whole_mapped_tuple :
    unify_vars 10 (Ty.atom "f") (Ty.tuple [Ty.atom "int", Ty.atom "int"])
        [(Ty.atom "f", Ty.tuple [Ty.atom "Unknown-x", Ty.atom "Unknown-1"])] =
      .ok [(Ty.atom "f", Ty.tuple [Ty.atom "Unknown-x", Ty.atom "Unknown-1"]),
           (Ty.atom "Unknown-x", Ty.atom "int"),
           (Ty.atom "Unknown-1", Ty.atom "int")] ∧
    (simplify_unification
        [(Ty.atom "f", Ty.tuple [Ty.atom "Unknown-x", Ty.atom "Unknown-1"]),
         (Ty.atom "Unknown-x", Ty.atom "int"),
         (Ty.atom "Unknown-1", Ty.atom "int")]).all
      (fun p => p.2.is_base_type) = true ∧
    apply_with_type 10
      ⟨Ty.atom "f",
       [(Ty.atom "f", Ty.tuple [Ty.atom "Unknown-x", Ty.atom "Unknown-1"])]⟩
      (Ty.tuple [Ty.atom "int", Ty.atom "int"]) =
      .ok (Ty.tuple [Ty.atom "int", Ty.atom "int"]) := by
  decide

/-- C7 helper: every word the lexer's character loop emits is a parenthesis
token or a word of non-special characters, provided the carried current word
is such a word. -/
theorem lexWords_shapes :
    ∀ (s cur : List Char), (∀ c ∈ cur, isWordChar c = true) →
      ∀ t ∈ lexWords s cur,
        t = ['('] ∨ t = [')'] ∨ (∀ c ∈ t, isWordChar c = true)
  | [], _, _ => by intro t ht; simp [lexWords] at ht
  | c :: cs, cur, hcur => by
    intro t ht
    rw [lexWords] at ht
    by_cases h1 : c = ' '
    · rw [if_pos h1] at ht
      rcases List.mem_cons.mp ht with h | h
      · exact Or.inr (Or.inr (h ▸ hcur))
      · exact lexWords_shapes cs [] (by simp) t h
    · rw [if_neg h1] at ht
      by_cases h2 : c = '('
      · rw [if_pos h2] at ht
        rcases List.mem_cons.mp ht with h | h
        · exact Or.inr (Or.inr (h ▸ hcur))
        · rcases List.mem_cons.mp h with h | h
          · exact Or.inl h
          · exact lexWords_shapes cs [] (by simp) t h
      · rw [if_neg h2] at ht
        by_cases h3 : c = ')'
        · rw [if_pos h3] at ht
          rcases List.mem_cons.mp ht with h | h
          · exact Or.inr (Or.inr (h ▸ hcur))
          · rcases List.mem_cons.mp h with h | h
            · exact Or.inr (Or.inl h)
            · exact lexWords_shapes cs [] (by simp) t h
        · rw [if_neg h3] at ht
          refine lexWords_shapes cs (cur ++ [c]) ?_ t ht
          intro c1 hc1
          rcases List.mem_append.mp hc1 with h | h
          · exact hcur c1 h
          · rw [List.mem_singleton.mp h, isWordChar]
            simp [h1, h2, h3]

/-- C7 helper: every token of `lexer s` is well formed. -/
theorem lexer_tokens_wf (s : List Char) : ∀ t ∈ lexer s, wfTok t := by
  intro t ht
  rw [lexer] at ht
  have hmem := List.mem_of_mem_filter ht
  have hne : t ≠ [] := by
    have := List.of_mem_filter ht
    simpa using this
  rcases lexWords_shapes s [] (by simp) t hmem with h | h | h
  · exact Or.inl h
  · exact Or.inr (Or.inl h)
  · exact Or.inr (Or.inr ⟨hne, h⟩)

/-- C7 helper: the character loop consumes one non-special word followed by
a space by flushing the accumulated current word. -/
theorem lexWords_word_flush :
    ∀ (w : List Char) (rest cur : List Char),
      (∀ c ∈ w, isWordChar c = true) →
      lexWords (w ++ ' ' :: rest) cur = (cur ++ w) :: lexWords rest []
  | [], rest, cur, _ => by simp [lexWords]
  | c :: w, rest, cur, hw => by
    have hc : isWordChar c = true := hw c (List.mem_cons_self c w)
    have h1 : ¬(c = ' ') := by
      intro h; rw [isWordChar, h] at hc; simp at hc
    have h2 : ¬(c = '(') := by
      intro h; rw [isWordChar, h] at hc; simp at hc
    have h3 : ¬(c = ')') := by
      intro h; rw [isWordChar, h] at hc; simp at hc
    rw [List.cons_append, lexWords, if_neg h1, if_neg h2, if_neg h3,
      lexWords_word_flush w rest (cur ++ [c])
        (fun c1 hc1 => hw c1 (List.mem_cons_of_mem c hc1))]
    simp

/-- C7 helper: lexing a concatenation of well-formed tokens, each followed
by one space, recovers exactly those tokens. -/
theorem lexer_flatMap_tokens :
    ∀ (ts : List (List Char)), (∀ t ∈ ts, wfTok t) →
      lexer (ts.flatMap (fun t => t ++ [' '])) = ts
  | [], _ => rfl
  | t :: ts, h => by
    have hts : ∀ u ∈ ts, wfTok u := fun u hu => h u (List.mem_cons_of_mem t hu)
    have ih := lexer_flatMap_tokens ts hts
    rw [lexer] at ih
    rcases h t (List.mem_cons_self t ts) with hp | hp | hp
    · subst hp
      rw [List.flatMap_cons]
      show lexer ('(' :: ' ' :: ts.flatMap (fun t => t ++ [' '])) = _
      rw [lexer, lexWords, if_neg (by decide), if_pos rfl, lexWords,
        if_pos rfl, List.filter_cons_of_neg (by decide),
        List.filter_cons_of_pos (by decide), List.filter_cons_of_neg (by decide), ih]
    · subst hp
      rw [List.flatMap_cons]
      show lexer (')' :: ' ' :: ts.flatMap (fun t => t ++ [' '])) = _
      rw [lexer, lexWords, if_neg (by decide), if_neg (by decide),
        if_pos rfl, lexWords, if_pos rfl, List.filter_cons_of_neg (by decide),
        List.filter_cons_of_pos (by decide), List.filter_cons_of_neg (by decide), ih]
    · rw [List.flatMap_cons, List.append_assoc]
      show lexer (t ++ (' ' :: ts.flatMap (fun t => t ++ [' ']))) = _
      rw [lexer, lexWords_word_flush t _ [] hp.2, List.nil_append,
        List.filter_cons_of_pos (by simpa using hp.1), ih]

/-- C7 helper: joining with single spaces plus one trailing space equals
appending one space to every token, for a nonempty token list. -/
theorem joinSpaces_append_space :
    ∀ (ts : List (List Char)), ts ≠ [] →
      joinSpaces ts ++ [' '] = ts.flatMap (fun t => t ++ [' '])
  | [], h => absurd rfl h
  | [t], _ => by simp [joinSpaces]
  | t :: t1 :: ts, _ => by
    rw [List.flatMap_cons, ← joinSpaces_append_space (t1 :: ts) (by simp)]
    show (t ++ ' ' :: joinSpaces (t1 :: ts)) ++ [' '] =
      (t ++ [' ']) ++ (joinSpaces (t1 :: ts) ++ [' '])
    simp

/-- C7 (refutation): the lexer drops an unflushed final word, so the
space-rejoin round trip fails on the input `"a "`: its token sequence is
the single word `a`, but re-lexing the rejoined text `a` yields no tokens
at all. -/
theorem c7_counterexample :
    lexer "a ".data = [['a']] ∧
    lexer (joinSpaces (lexer "a ".data)) = [] ∧
    ([] : List (List Char)) ≠ [['a']] := by decide

/-- C7 (amended): the lexer is total by construction, and the round trip
holds with one trailing separator: for every input, re-joining the token
sequence with single spaces AND a final space, then re-lexing, yields the
same token sequence.  (Without the trailing separator the lexer drops the
final token whenever it is not a parenthesis, since the loop never flushes
the last current word.) -/
theorem c7_amended_roundtrip_with_trailing_space (s : List Char) :
    lexer (joinSpaces (lexer s) ++ [' ']) = lexer s := by
  by_cases h : lexer s = []
  · rw [h]
    decide
  · rw [joinSpaces_append_space (lexer s) h,
      lexer_flatMap_tokens (lexer s) (lexer_tokens_wf s)]

mutual

/-- C6 helper: a successfully resolved node had a map entry for every callee
name the resolver visited. -/
theorem resolveAst_ok_names (m : List (String × TypedFnDef)) :
    ∀ (a b : BaseAst), resolveAst m a = .ok b →
      ∀ n ∈ unresolvedNames a, (dictLookup m n).isSome = true
  | .UnresolvedVariableLoad _, _, _, _, hn => absurd hn (by simp [unresolvedNames])
  | .ConstantLoad _ _, _, _, _, hn => absurd hn (by simp [unresolvedNames])
  | .FunctionApplication _ _, _, _, _, hn => absurd hn (by simp [unresolvedNames])
  | .UnresolvedFnApp fn ps, b, h, n, hn => by
    rw [resolveAst] at h
    cases hr : resolveList m ps with
    | error e => rw [hr] at h; simp [Bind.bind, Except.bind] at h
    | ok ps1 =>
      rw [hr] at h
      simp only [Bind.bind, Except.bind] at h
      rw [unresolvedNames] at hn
      rcases List.mem_cons.mp hn with h1 | h1
      · subst h1
        cases hl : dictLookup m n with
        | none => rw [hl] at h; exact Except.noConfusion h
        | some d => rfl
      · exact resolveList_ok_names m ps ps1 hr n h1
  | .ProgN ps, b, h, n, hn => by
    rw [resolveAst] at h
    cases hr : resolveList m ps with
    | error e => rw [hr] at h; simp [Bind.bind, Except.bind] at h
    | ok ps1 =>
      rw [unresolvedNames] at hn
      exact resolveList_ok_names m ps ps1 hr n hn

/-- C6 helper, list version of `resolveAst_ok_names`. -/
theorem resolveList_ok_names (m : List (String × TypedFnDef)) :
    ∀ (l bs : List BaseAst), resolveList m l = .ok bs →
      ∀ n ∈ unresolvedNamesList l, (dictLookup m n).isSome = true
  | [], _, _, _, hn => absurd hn (by simp [unresolvedNamesList])
  | a :: as1, bs, h, n, hn => by
    rw [resolveList] at h
    cases hr1 : resolveAst m a with
    | error e => rw [hr1] at h; simp [Bind.bind, Except.bind] at h
    | ok b1 =>
      rw [hr1] at h
      simp only [Bind.bind, Except.bind] at h
      cases hr2 : resolveList m as1 with
      | error e => rw [hr2] at h; simp [Except.bind] at h
      | ok bs1 =>
        rw [unresolvedNamesList] at hn
        rcases List.mem_append.mp hn with h1 | h1
        · exact resolveAst_ok_names m a b1 hr1 n h1
        · exact resolveList_ok_names m as1 bs1 hr2 n h1

end

mutual

/-- C6 helper: when every visited callee name has a map entry, resolution
succeeds. -/
theorem resolveAst_complete (m : List (String × TypedFnDef)) :
    ∀ (a : BaseAst), (∀ n ∈ unresolvedNames a, (dictLookup m n).isSome = true) →
      ∃ b, resolveAst m a = .ok b
  | .UnresolvedVariableLoad v, _ => ⟨.UnresolvedVariableLoad v, rfl⟩
  | .ConstantLoad t c1, _ => ⟨.ConstantLoad t c1, rfl⟩
  | .FunctionApplication d ps, _ => ⟨.FunctionApplication d ps, rfl⟩
  | .ProgN ps, h => by
    obtain ⟨bs, hbs⟩ := resolveList_complete m ps
      (fun n hn => h n (by rw [unresolvedNames]; exact hn))
    exact ⟨.ProgN bs, by rw [resolveAst, hbs]; rfl⟩
  | .UnresolvedFnApp fn ps, h => by
    obtain ⟨bs, hbs⟩ := resolveList_complete m ps
      (fun n hn => h n (by rw [unresolvedNames]; exact List.mem_cons_of_mem _ hn))
    have hfn := h fn (by rw [unresolvedNames]; exact List.mem_cons_self _ _)
    cases hl : dictLookup m fn with
    | none => rw [hl] at hfn; simp at hfn
    | some d =>
      refine ⟨.FunctionApplication d bs, ?_⟩
      rw [resolveAst, hbs]
      simp only [Bind.bind, Except.bind]
      rw [hl]

/-- C6 helper, list version of `resolveAst_complete`. -/
theorem resolveList_complete (m : List (String × TypedFnDef)) :
    ∀ (l : List BaseAst),
      (∀ n ∈ unresolvedNamesList l, (dictLookup m n).isSome = true) →
      ∃ bs, resolveList m l = .ok bs
  | [], _ => ⟨[], by rw [resolveList]⟩
  | a :: as1, h => by
    obtain ⟨b1, hb1⟩ := resolveAst_complete m a
      (fun n hn => h n
        (by rw [unresolvedNamesList]; exact List.mem_append.mpr (Or.inl hn)))
    obtain ⟨bs1, hbs1⟩ := resolveList_complete m as1
      (fun n hn => h n
        (by rw [unresolvedNamesList]; exact List.mem_append.mpr (Or.inr hn)))
    refine ⟨b1 :: bs1, ?_⟩
    rw [resolveList, hb1]
    simp only [Bind.bind, Except.bind]
    rw [hbs1]

end

mutual

/-- C6 helper: on the direct-call-free trees lowering produces, successful
resolution leaves no unresolved call anywhere in the output. -/
theorem resolveAst_resolves (m : List (String × TypedFnDef)) :
    ∀ (a b : BaseAst), faFree a = true → resolveAst m a = .ok b →
      hasUnresolvedCall b = false
  | .UnresolvedVariableLoad v, b, _, h => by
    have h1 : Except.ok (BaseAst.UnresolvedVariableLoad v) = Except.ok b := h
    injection h1 with h1
    rw [← h1]; rfl
  | .ConstantLoad t c1, b, _, h => by
    have h1 : Except.ok (BaseAst.ConstantLoad t c1) = Except.ok b := h
    injection h1 with h1
    rw [← h1]; rfl
  | .FunctionApplication d ps, b, hf, _ => by
    rw [faFree] at hf; exact absurd hf (by simp)
  | .UnresolvedFnApp fn ps, b, hf, h => by
    rw [resolveAst] at h
    cases hr : resolveList m ps with
    | error e => rw [hr] at h; simp [Bind.bind, Except.bind] at h
    | ok ps1 =>
      rw [hr] at h
      simp only [Bind.bind, Except.bind] at h
      cases hl : dictLookup m fn with
      | none => rw [hl] at h; exact Except.noConfusion h
      | some d =>
        rw [hl] at h
        injection h with h
        rw [← h, hasUnresolvedCall]
        rw [faFree] at hf
        exact resolveList_resolves m ps ps1 hf hr
  | .ProgN ps, b, hf, h => by
    rw [resolveAst] at h
    cases hr : resolveList m ps with
    | error e => rw [hr] at h; simp [Bind.bind, Except.bind] at h
    | ok ps1 =>
      rw [hr] at h
      simp only [Bind.bind, Except.bind] at h
      injection h with h
      rw [← h, hasUnresolvedCall]
      rw [faFree] at hf
      exact resolveList_resolves m ps ps1 hf hr

/-- C6 helper, list version of `resolveAst_resolves`. -/
theorem resolveList_resolves (m : List (String × TypedFnDef)) :
    ∀ (l bs : List BaseAst), faFreeList l = true → resolveList m l = .ok bs →
      hasUnresolvedCallList bs = false
  | [], bs, _, h => by
    rw [resolveList] at h
    injection h with h
    rw [← h]; rfl
  | a :: as1, bs, hf, h => by
    rw [resolveList] at h
    cases hr1 : resolveAst m a with
    | error e => rw [hr1] at h; simp [Bind.bind, Except.bind] at h
    | ok b1 =>
      rw [hr1] at h
      simp only [Bind.bind, Except.bind] at h
      cases hr2 : resolveList m as1 with
      | error e => rw [hr2] at h; simp [Except.bind] at h
      | ok bs1 =>
        rw [hr2] at h
        injection h with h
        rw [faFreeList] at hf
        obtain ⟨hf1, hf2⟩ : faFree a = true ∧ faFreeList as1 = true := by
          simpa using hf
        rw [← h, hasUnresolvedCallList,
          resolveAst_resolves m a b1 hf1 hr1,
          resolveList_resolves m as1 bs1 hf2 hr2]
        rfl

end

/-- C6 helper: a successfully resolved function definition had a map entry
for every callee name in its body. -/
theorem resolveFnDef_ok_names (m : List (String × TypedFnDef))
    (f f1 : TypedFnDef) (h : resolveFnDef m f = .ok f1) :
    ∀ n ∈ unresolvedNames f.body, (dictLookup m n).isSome = true := by
  rw [resolveFnDef] at h
  cases hr : resolveAst m f.body with
  | error e => rw [hr] at h; simp [Bind.bind, Except.bind] at h
  | ok b => exact resolveAst_ok_names m f.body b hr

/-- C6 helper: a function definition all of whose callee names have map
entries resolves successfully. -/
theorem resolveFnDef_complete (m : List (String × TypedFnDef)) (f : TypedFnDef)
    (h : ∀ n ∈ unresolvedNames f.body, (dictLookup m n).isSome = true) :
    ∃ f1, resolveFnDef m f = .ok f1 := by
  obtain ⟨b, hb⟩ := resolveAst_complete m f.body h
  exact ⟨.mk f.name f.params b f.return_type, by rw [resolveFnDef, hb]; rfl⟩

/-- C6 helper: successful resolution of a direct-call-free body leaves no
unresolved call in the output body. -/
theorem resolveFnDef_resolves (m : List (String × TypedFnDef)) (f f1 : TypedFnDef)
    (hf : faFree f.body = true) (h : resolveFnDef m f = .ok f1) :
    hasUnresolvedCall f1.body = false := by
  rw [resolveFnDef] at h
  cases hr : resolveAst m f.body with
  | error e => rw [hr] at h; simp [Bind.bind, Except.bind] at h
  | ok b =>
    rw [hr] at h
    simp only [Bind.bind, Except.bind] at h
    injection h with h
    rw [← h]
    exact resolveAst_resolves m f.body b hf hr

/-- C6 helper: `resolveDefs` success means every callee name of every input
definition had a map entry. -/
theorem resolveDefs_ok_names (m : List (String × TypedFnDef)) :
    ∀ (fs fs1 : List TypedFnDef), resolveDefs m fs = .ok fs1 →
      ∀ f ∈ fs, ∀ n ∈ unresolvedNames f.body, (dictLookup m n).isSome = true
  | [], _, _ => fun f hf => absurd hf (List.not_mem_nil f)
  | g :: fs, fs1, h => by
    rw [resolveDefs] at h
    cases hr1 : resolveFnDef m g with
    | error e => rw [hr1] at h; simp [Bind.bind, Except.bind] at h
    | ok g1 =>
      rw [hr1] at h
      simp only [Bind.bind, Except.bind] at h
      cases hr2 : resolveDefs m fs with
      | error e => rw [hr2] at h; simp [Except.bind] at h
      | ok gs1 =>
        intro f hf
        rcases List.mem_cons.mp hf with h1 | h1
        · subst h1; exact resolveFnDef_ok_names m f g1 hr1
        · exact resolveDefs_ok_names m fs gs1 hr2 f h1

/-- C6 helper: when every callee name of every definition has a map entry,
`resolveDefs` succeeds. -/
theorem resolveDefs_complete (m : List (String × TypedFnDef)) :
    ∀ (fs : List TypedFnDef),
      (∀ f ∈ fs, ∀ n ∈ unresolvedNames f.body, (dictLookup m n).isSome = true) →
      ∃ fs1, resolveDefs m fs = .ok fs1
  | [], _ => ⟨[], rfl⟩
  | g :: fs, h => by
    obtain ⟨g1, hg1⟩ := resolveFnDef_complete m g (h g (List.mem_cons_self g fs))
    obtain ⟨gs1, hgs1⟩ :=
      resolveDefs_complete m fs (fun f hf => h f (List.mem_cons_of_mem g hf))
    refine ⟨g1 :: gs1, ?_⟩
    rw [resolveDefs, hg1]
    simp only [Bind.bind, Except.bind]
    rw [hgs1]

/-- C6 helper: on direct-call-free inputs, `resolveDefs` success leaves no
unresolved call in any output body. -/
theorem resolveDefs_resolves (m : List (String × TypedFnDef)) :
    ∀ (fs fs1 : List TypedFnDef),
      (∀ f ∈ fs, faFree f.body = true) → resolveDefs m fs = .ok fs1 →
      ∀ f1 ∈ fs1, hasUnresolvedCall f1.body = false
  | [], fs1, _, h => by
    have h1 : Except.ok ([] : List TypedFnDef) = Except.ok fs1 := h
    injection h1 with h1
    rw [← h1]
    exact fun f1 hf1 => absurd hf1 (List.not_mem_nil f1)
  | g :: fs, fs1, hf, h => by
    rw [resolveDefs] at h
    cases hr1 : resolveFnDef m g with
    | error e => rw [hr1] at h; simp [Bind.bind, Except.bind] at h
    | ok g1 =>
      rw [hr1] at h
      simp only [Bind.bind, Except.bind] at h
      cases hr2 : resolveDefs m fs with
      | error e => rw [hr2] at h; simp [Except.bind] at h
      | ok gs1 =>
        rw [hr2] at h
        injection h with h
        intro f1 hf1
        rw [← h] at hf1
        rcases List.mem_cons.mp hf1 with h1 | h1
        · subst h1
          exact resolveFnDef_resolves m g f1 (hf g (List.mem_cons_self g fs)) hr1
        · exact resolveDefs_resolves m fs gs1
            (fun f2 h2 => hf f2 (List.mem_cons_of_mem g h2)) hr2 f1 h1

/-- C6: call resolution (1) on the direct-call-free bodies lowering
produces, success leaves no unresolved call node anywhere in any output
body; (2) it succeeds whenever every visited callee name has an entry in the
name-to-definition table; (3) it fails fatally whenever some unresolved
call's callee name has no entry — an unknown callee is never silently
dropped; and (4) a rewritten call references exactly the definition the
table maps its callee name to. -/
theorem c6_unknown_callee_fatal_known_callees_rewritten :
    (∀ (fs fs1 : List TypedFnDef),
      (∀ f ∈ fs, faFree f.body = true) →
      resolve_all_function_calls fs = .ok fs1 →
      ∀ f1 ∈ fs1, hasUnresolvedCall f1.body = false) ∧
    (∀ fs : List TypedFnDef,
      (∀ f ∈ fs, ∀ n ∈ unresolvedNames f.body,
        (dictLookup (function_name_map fs) n).isSome = true) →
      ∃ fs1, resolve_all_function_calls fs = .ok fs1) ∧
    (∀ (fs : List TypedFnDef) (f : TypedFnDef) (n : String),
      f ∈ fs → n ∈ unresolvedNames f.body →
      dictLookup (function_name_map fs) n = none →
      ∃ e, resolve_all_function_calls fs = .error e) ∧
    (∀ (m : List (String × TypedFnDef)) (fn : String) (ps : List BaseAst)
       (d : TypedFnDef) (ps1 : List BaseAst),
      resolveAst m (.UnresolvedFnApp fn ps) = .ok (.FunctionApplication d ps1) →
      dictLookup m fn = some d) := by
  refine ⟨?_, ?_, ?_, ?_⟩
  · intro fs fs1 hf h
    exact resolveDefs_resolves (function_name_map fs) fs fs1 hf h
  · intro fs h
    exact resolveDefs_complete (function_name_map fs) fs h
  · intro fs f n hf hn hnone
    cases h : resolve_all_function_calls fs with
    | ok fs1 =>
      have := resolveDefs_ok_names (function_name_map fs) fs fs1 h f hf n hn
      rw [hnone] at this
      exact absurd this (by simp)
    | error e => exact ⟨e, rfl⟩
  · intro m fn ps d ps1 h
    rw [resolveAst] at h
    cases hr : resolveList m ps with
    | error e => rw [hr] at h; simp [Bind.bind, Except.bind] at h
    | ok l =>
      rw [hr] at h
      simp only [Bind.bind, Except.bind] at h
      cases hl : dictLookup m fn with
      | none => rw [hl] at h; exact Except.noConfusion h
      | some d1 =>
        rw [hl] at h
        injection h with h
        injection h with h1 h2
        rw [h1]

/-- C6 witness: a two-definition program whose `main` calls `g` resolves
successfully, and a program calling the unknown `undefined_fn` fails with an
error. -/
theorem c6_witness :
    (∃ fs1, resolve_all_function_calls
      [.mk "g" [] (.ConstantLoad (Ty.atom "int") "1") (Ty.atom "int"),
       .mk "main" [] (.UnresolvedFnApp "g" []) (Ty.atom "void")] = .ok fs1) ∧
    (∃ e, resolve_all_function_calls
      [.mk "main" [] (.UnresolvedFnApp "undefined_fn" []) (Ty.atom "void")] =
        .error e) :=
  ⟨c6_unknown_callee_fatal_known_callees_rewritten.2.1
      [.mk "g" [] (.ConstantLoad (Ty.atom "int") "1") (Ty.atom "int"),
       .mk "main" [] (.UnresolvedFnApp "g" []) (Ty.atom "void")]
      (by intro f hf n hn
          rcases List.mem_cons.mp hf with h1 | h1
          · subst h1
            have hn1 : n ∈ ([] : List String) := hn
            exact absurd hn1 (List.not_mem_nil n)
          · rcases List.mem_cons.mp h1 with h2 | h2
            · subst h2
              have hn1 : n ∈ ["g"] := hn
              rcases List.mem_cons.mp hn1 with h3 | h3
              · subst h3; rfl
              · exact absurd h3 (List.not_mem_nil n)
            · exact absurd h2 (List.not_mem_nil f)),
   c6_unknown_callee_fatal_known_callees_rewritten.2.2.1
      [.mk "main" [] (.UnresolvedFnApp "undefined_fn" []) (Ty.atom "void")]
      (.mk "main" [] (.UnresolvedFnApp "undefined_fn" []) (Ty.atom "void"))
      "undefined_fn"
      (List.mem_cons_self _ _)
      (show "undefined_fn" ∈ ["undefined_fn"] from List.mem_cons_self _ _)
      rfl⟩
